import Mathlib

/-!
Verification development for the `web-scraper` repository.

Shallow embedding of the data-cleaning, availability-classification,
pagination, container-location and brand-color components, translated
from the Python source under `src/`.  Python strings are modelled as
Lean `String`/`List Char` (ASCII-relevant operations); Python floats are
modelled as exact rationals `ℚ`; Python `None` as `Option.none`.
-/

namespace Scraper

/-! ### String helpers (Python `str.strip`, `str.lower`, substring test) -/

/-- Python whitespace characters recognised by `str.strip()` and regex `\s`
(ASCII range). -/
def pyWs (c : Char) : Bool :=
  c = ' ' || c = '\t' || c = '\n' || c = '\r' || c = '\x0b' || c = '\x0c'

/-- Python `str.strip()` on a char list: drop whitespace from both ends. -/
def pyStripL (cs : List Char) : List Char :=
  ((cs.dropWhile pyWs).reverse.dropWhile pyWs).reverse

/-- Python `str.strip()`. -/
def pyStrip (s : String) : String := ⟨pyStripL s.data⟩

/-- Python `str.lower()` (ASCII case folding, which covers every string in
the repository's keyword lists). -/
def pyLower (s : String) : String := ⟨s.data.map Char.toLower⟩

/-- `startsWithL hay needle` — does `hay` start with `needle`? -/
def startsWithL : List Char → List Char → Bool
  | _, [] => true
  | [], _ :: _ => false
  | h :: hs, n :: ns => h == n && startsWithL hs ns

/-- Python `needle in hay` substring test on char lists. -/
def containsSubL (needle : List Char) : List Char → Bool
  | [] => needle.isEmpty
  | h :: t => startsWithL (h :: t) needle || containsSubL needle t

/-- Python `needle in hay` substring test on strings. -/
def containsSub (hay needle : String) : Bool := containsSubL needle.data hay.data

/-! ### `ProductParser._determine_availability` (src/scraper_agent/parser.py) -/

/-- `ProductParser.IN_STOCK_INDICATORS`. -/
def IN_STOCK_INDICATORS : List String :=
  ["in stock", "available", "add to cart", "buy now",
   "add to bag", "in-stock", "ships from"]

/-- `ProductParser.OUT_OF_STOCK_INDICATORS`. -/
def OUT_OF_STOCK_INDICATORS : List String :=
  ["out of stock", "sold out", "unavailable", "not available",
   "out-of-stock", "currently unavailable", "notify me"]

/-- `ProductParser._determine_availability`: lower/strip the text, check the
out-of-stock indicator list first, then the in-stock list, else `Unknown`. -/
def determine_availability (text : String) : String :=
  let text_lower := pyStrip (pyLower text)
  if OUT_OF_STOCK_INDICATORS.any (fun k => containsSub text_lower k) then "Out of Stock"
  else if IN_STOCK_INDICATORS.any (fun k => containsSub text_lower k) then "In Stock"
  else "Unknown"

/-! ### `DataCleaner` (src/scraper_agent/data_cleaner.py) -/

/-- Collapse every run of whitespace to a single space:
`re.sub(r'\s+', ' ', name)`.  The flag records whether the previous
character was whitespace (i.e. we are inside a run). -/
def collapseGo (prevWs : Bool) : List Char → List Char
  | [] => []
  | c :: cs =>
    if pyWs c then (if prevWs then [] else [' ']) ++ collapseGo true cs
    else c :: collapseGo false cs

/-- `re.sub(r'\s+', ' ', name)`. -/
def collapseWsL (cs : List Char) : List Char := collapseGo false cs

/-- The alternatives of the junk regex `^(New|Sale|Hot|Best Seller|Trending)`. -/
def junkAlternatives : List (List Char) :=
  ["New", "Sale", "Hot", "Best Seller", "Trending"].map String.data

/-- The character class `[\s!:|-]` of the junk regex. -/
def junkClass (c : Char) : Bool :=
  pyWs c || c = '!' || c = ':' || c = '|' || c = '-'

/-- `re.sub(r'^(New|Sale|Hot|Best Seller|Trending)[\s!:|-]+', '', name, re.I)`:
if the name starts (case-insensitively) with one of the alternatives followed
by at least one `[\s!:|-]` character, remove the alternative and the whole
greedy run of class characters. -/
def stripJunkPre (cs : List Char) : List Char :=
  match junkAlternatives.find? (fun p =>
      startsWithL (cs.map Char.toLower) (p.map Char.toLower) &&
      (match cs.drop p.length with
       | d :: _ => junkClass d
       | [] => false)) with
  | some p => (cs.drop p.length).dropWhile junkClass
  | none => cs

/-- Does `cs` entirely match `\s*\(?\d+\s*reviews?\)?` (case-insensitive)?
The character classes of consecutive regex pieces are disjoint, so the
greedy left-to-right parse is exact. -/
def matchReviewsL (cs : List Char) : Bool :=
  let cs1 := cs.dropWhile pyWs
  let cs2 := match cs1 with | '(' :: t => t | _ => cs1
  match cs2 with
  | c :: _ =>
    if c.isDigit then
      let cs3 := cs2.dropWhile Char.isDigit
      let low := (cs3.dropWhile pyWs).map Char.toLower
      if startsWithL low "review".data then
        let cs5 := low.drop 6
        let cs6 := match cs5 with | 's' :: t => t | _ => cs5
        let cs7 := match cs6 with | ')' :: t => t | _ => cs6
        cs7.isEmpty
      else false
    else false
  | [] => false

/-- Does `cs` entirely match `\s*-\s*`? -/
def matchDashL (cs : List Char) : Bool :=
  match cs.dropWhile pyWs with
  | '-' :: t => (t.dropWhile pyWs).isEmpty
  | _ => false

/-- Remove the leftmost suffix of `cs` that entirely matches `p`
(`re.sub` of an end-anchored pattern): scan start positions left to right. -/
def stripMatchedSuffix (p : List Char → Bool) (cs : List Char) : List Char :=
  match (List.range (cs.length + 1)).find? (fun i => p (cs.drop i)) with
  | some i => cs.take i
  | none => cs

/-- `DataCleaner._clean_name`: collapse whitespace and strip, remove the three
junk patterns (each application followed by `strip()`), truncate names longer
than 300 characters to 297 plus `"..."`. -/
def clean_nameL (cs : List Char) : List Char :=
  let n1 := pyStripL (collapseWsL cs)
  let n2 := pyStripL (stripJunkPre n1)
  let n3 := pyStripL (stripMatchedSuffix matchReviewsL n2)
  let n4 := pyStripL (stripMatchedSuffix matchDashL n3)
  if 300 < n4.length then n4.take 297 ++ "...".data else n4

/-- `DataCleaner._clean_name` on strings. -/
def clean_name (s : String) : String := ⟨clean_nameL s.data⟩

/-- The currency-symbol class `[\$€£¥₹]` of the price regex. -/
def currencySym (c : Char) : Bool :=
  c = '$' || c = '€' || c = '£' || c = '¥' || c = '₹'

/-- The class `[\d,]` of the price regex. -/
def digitComma (c : Char) : Bool := c.isDigit || c = ','

/-- Match `[\$€£¥₹]?\s*[\d,]+\.?\d*\s*[\$€£¥₹]?` at the start of `cs`,
returning the matched span.  Adjacent regex pieces use disjoint character
classes, so the greedy deterministic parse is exact. -/
def priceMatchAt (cs : List Char) : Option (List Char) :=
  let (m1, r1) := match cs with
    | c :: t => if currencySym c then ([c], t) else (([] : List Char), cs)
    | [] => ([], [])
  let ws1 := r1.takeWhile pyWs
  let r2 := r1.dropWhile pyWs
  let digs := r2.takeWhile digitComma
  let r3 := r2.dropWhile digitComma
  if digs.isEmpty then none
  else
    let (dot, r4) := match r3 with
      | '.' :: t => (['.'], t)
      | _ => (([] : List Char), r3)
    let frac := r4.takeWhile Char.isDigit
    let r5 := r4.dropWhile Char.isDigit
    let ws2 := r5.takeWhile pyWs
    let r6 := r5.dropWhile pyWs
    let m2 := match r6 with
      | c :: _ => if currencySym c then [c] else []
      | [] => []
    some (m1 ++ ws1 ++ digs ++ dot ++ frac ++ ws2 ++ m2)

/-- `re.search` of the price pattern: the match at the leftmost position
where one exists. -/
def findPriceMatch : List Char → Option (List Char)
  | [] => none
  | c :: t =>
    match priceMatchAt (c :: t) with
    | some m => some m
    | none => findPriceMatch t

/-- `DataCleaner._clean_price`: strip, return the first regex match
(stripped); else return the stripped input if it contains a digit, else
nothing. -/
def clean_price (price : String) : Option String :=
  if price = "" then none
  else
    let p := pyStrip price
    match findPriceMatch p.data with
    | some m => some ⟨pyStripL m⟩
    | none => if p.data.any Char.isDigit then some p else none

/-- `re.sub(r'[^\d.,]', '', price)`: keep only digits, dots and commas. -/
def numericCleanL (cs : List Char) : List Char :=
  cs.filter (fun c => c.isDigit || c = '.' || c = ',')

/-- Python `str.index(c)`: position of the first occurrence of `c`. -/
def firstIdxOf (c : Char) : List Char → Nat
  | [] => 0
  | d :: t => if d = c then 0 else firstIdxOf c t + 1

/-- `cleaned.split(',')[-1]`: the group after the last comma. -/
def lastGroupAfterComma (cs : List Char) : List Char :=
  (cs.reverse.takeWhile (fun c => c ≠ ',')).reverse

/-- The comma/dot disambiguation of `DataCleaner._extract_numeric_price`:
with both separators present the earlier one is the thousands separator;
with commas only, a 2-character trailing group makes the comma a decimal
point, otherwise commas are thousands separators. -/
def applyCommaDotRules (cs : List Char) : List Char :=
  if cs.contains ',' && cs.contains '.' then
    if firstIdxOf '.' cs < firstIdxOf ',' cs then
      (cs.filter (fun c => c ≠ '.')).map (fun c => if c = ',' then '.' else c)
    else cs.filter (fun c => c ≠ ',')
  else if cs.contains ',' then
    if (lastGroupAfterComma cs).length = 2 then
      cs.map (fun c => if c = ',' then '.' else c)
    else cs.filter (fun c => c ≠ ',')
  else cs

/-- Value of a digit string as a natural number. -/
def digitsToNat (cs : List Char) : Nat :=
  cs.foldl (fun a c => 10 * a + (c.toNat - '0'.toNat)) 0

/-- Python `float(s)` restricted to the shapes reachable here (digits and at
most one dot): `ValueError` is `none`.  Floats are modelled as exact
rationals. -/
def pyFloatOfString (cs : List Char) : Option ℚ :=
  if cs.isEmpty then none
  else if !(cs.all (fun c => c.isDigit || c = '.')) then none
  else if 1 < (cs.filter (fun c => c = '.')).length then none
  else if !(cs.any Char.isDigit) then none
  else
    let ip := cs.takeWhile (fun c => c ≠ '.')
    let fp := (cs.dropWhile (fun c => c ≠ '.')).drop 1
    some (mkRat (digitsToNat ip * 10 ^ fp.length + digitsToNat fp : ℤ)
      (10 ^ fp.length))

/-- Round the fraction `num / den` (`den > 0`; `num ≥ 0` in every use here)
to the nearest integer, ties to even (Python `round` semantics on exact
fractions): the fractional part `num/den - f` is compared with `1/2` by
cross-multiplication. -/
def roundHalfEvenFrac (num den : ℤ) : ℤ :=
  let f := num / den
  let r2 := 2 * (num - f * den)
  if r2 < den then f
  else if den < r2 then f + 1
  else if f % 2 = 0 then f else f + 1

/-- Python `round(x, 2)` (floats modelled as exact rationals):
`100·v = (100·v.num)/v.den` rounded half-even, then divided by 100. -/
def pyRound2 (v : ℚ) : ℚ :=
  mkRat (roundHalfEvenFrac (100 * v.num) (v.den : ℤ)) 100

/-- `DataCleaner._extract_numeric_price`. -/
def extract_numeric_price (price : String) : Option ℚ :=
  if price = "" then none
  else
    let cleaned := applyCommaDotRules (numericCleanL price.data)
    (pyFloatOfString cleaned).map pyRound2

/-- `DataCleaner._clean_availability` on a string input. -/
def clean_availability (availability : String) : String :=
  if availability = "" then "Unknown"
  else
    let text := pyStrip (pyLower availability)
    if (["in stock", "available", "in-stock"] : List String).any
        (fun k => containsSub text k) then "In Stock"
    else if (["out of stock", "sold out", "unavailable", "out-of-stock"] : List String).any
        (fun k => containsSub text k) then "Out of Stock"
    else if (["pre-order", "preorder", "coming soon"] : List String).any
        (fun k => containsSub text k) then "Pre-Order"
    else if (["limited", "few left", "low stock"] : List String).any
        (fun k => containsSub text k) then "Limited Stock"
    else "Unknown"

/-- `DataCleaner._clean_availability` including the `None` input
(`if not availability: return "Unknown"`). -/
def clean_availability_opt : Option String → String
  | none => "Unknown"
  | some s => clean_availability s

/-- Try the tracking-parameter alternatives `utm_[^&]*|ref=[^&]*|tag=[^&]*`
at the head of `cs`; on success return the rest of the list after the
greedy `[^&]*` run. -/
def trackAlt (cs : List Char) : Option (List Char) :=
  if startsWithL cs "utm_".data then
    some ((cs.drop 4).dropWhile (fun c => c ≠ '&'))
  else if startsWithL cs "ref=".data then
    some ((cs.drop 4).dropWhile (fun c => c ≠ '&'))
  else if startsWithL cs "tag=".data then
    some ((cs.drop 4).dropWhile (fun c => c ≠ '&'))
  else none

/-- `dropWhile` never lengthens a list (termination helper). -/
theorem lengthDropWhileLe {α : Type} (p : α → Bool) (l : List α) :
    (l.dropWhile p).length ≤ l.length := by
  induction l with
  | nil => simp [List.dropWhile]
  | cons c t ih =>
    simp only [List.dropWhile]
    split
    · exact Nat.le_succ_of_le ih
    · simp

/-- `re.sub(r'[&?](utm_[^&]*|ref=[^&]*|tag=[^&]*)', '', url)`: left-to-right
scan removing every non-overlapping match. -/
def stripTracking : List Char → List Char
  | [] => []
  | c :: t =>
    if c = '&' || c = '?' then
      match h : trackAlt t with
      | some rest => stripTracking rest
      | none => c :: stripTracking t
    else c :: stripTracking t
termination_by cs => cs.length
decreasing_by
  · simp only [trackAlt] at h
    split at h
    · cases h
      have h1 := lengthDropWhileLe (fun c => c ≠ '&') (t.drop 4)
      have h2 := List.length_drop 4 t
      simp only [List.length_cons]
      omega
    · split at h
      · cases h
        have h1 := lengthDropWhileLe (fun c => c ≠ '&') (t.drop 4)
        have h2 := List.length_drop 4 t
        simp only [List.length_cons]
        omega
      · split at h
        · cases h
          have h1 := lengthDropWhileLe (fun c => c ≠ '&') (t.drop 4)
          have h2 := List.length_drop 4 t
          simp only [List.length_cons]
          omega
        · cases h
  · simp only [List.length_cons]; omega
  · simp only [List.length_cons]; omega

/-- `DataCleaner._clean_url`: strip, remove tracking parameters, accept only
`http://`, `https://` or scheme-relative `//` URLs (the latter qualified
with `https:`). -/
def clean_url : Option String → Option String
  | none => none
  | some url =>
    if url = "" then none
    else
      let u : List Char := stripTracking (pyStripL url.data)
      if startsWithL u "http://".data || startsWithL u "https://".data then
        some ⟨u⟩
      else if startsWithL u "//".data then some ⟨"https:".data ++ u⟩
      else none

/-- A raw product record, as assembled by `ProductParser.parse_product`:
every field may be missing (`None`) or empty. -/
structure RawProduct where
  name : Option String
  price : Option String
  availability : Option String
  product_url : Option String
  image_url : Option String
deriving DecidableEq

/-- A cleaned product record, as produced by `DataCleaner._clean_product`. -/
structure CleanedProduct where
  name : String
  price : Option String
  price_numeric : Option ℚ
  availability : String
  product_url : Option String
  image_url : Option String
deriving DecidableEq

/-- `self._clean_price(price) if price else None`. -/
def priceField : Option String → Option String
  | some s => if s = "" then none else clean_price s
  | none => none

/-- `self._extract_numeric_price(price) if price else None`. -/
def priceNumericField : Option String → Option ℚ
  | some s => if s = "" then none else extract_numeric_price s
  | none => none

/-- `DataCleaner._clean_product`: a record without a truthy name, or whose
cleaned name has fewer than 2 characters, is rejected; otherwise every field
is normalised. -/
def clean_product (product : RawProduct) : Option CleanedProduct :=
  match product.name with
  | none => none
  | some s =>
    if s = "" then none
    else
      let name := clean_name s
      if name.length < 2 then none
      else some
        { name := name
          price := priceField product.price
          price_numeric := priceNumericField product.price
          availability := clean_availability_opt product.availability
          product_url := clean_url product.product_url
          image_url := clean_url product.image_url }

/-- Reinterpret a cleaned record as the dictionary handed back to
`_clean_product` when cleaning is applied a second time (the
`price_numeric` key is ignored and recomputed by `_clean_product`). -/
def CleanedProduct.toRaw (c : CleanedProduct) : RawProduct :=
  { name := some c.name
    price := c.price
    availability := some c.availability
    product_url := c.product_url
    image_url := c.image_url }

/-- The deduplication key of `DataCleaner._deduplicate`:
`(product.get("name", "").lower().strip(), product.get("price", ""))`.
The price component is the stored value (possibly `None`). -/
def dedupKey (c : CleanedProduct) : String × Option String :=
  (pyStrip (pyLower c.name), c.price)

/-- The loop of `DataCleaner._deduplicate` with its `seen` accumulator. -/
def dedupGo (seen : List (String × Option String)) :
    List CleanedProduct → List CleanedProduct
  | [] => []
  | p :: ps =>
    if dedupKey p ∈ seen then dedupGo seen ps
    else p :: dedupGo (dedupKey p :: seen) ps

/-- `DataCleaner._deduplicate`. -/
def deduplicate (l : List CleanedProduct) : List CleanedProduct := dedupGo [] l

/-- `DataCleaner.clean`: clean every record, drop rejected ones, then
deduplicate. -/
def clean (products : List RawProduct) : List CleanedProduct :=
  deduplicate (products.filterMap clean_product)

/-! ### `PaginationHandler` (src/scraper_agent/pagination.py)

The four next-URL strategies inspect the parsed page (BeautifulSoup) and the
current URL and produce candidate URLs in a fixed priority order; every
`return` path in the source is guarded by `url not in self.visited_urls`.
The page inspection is abstracted as the ordered candidate list produced by
the strategies; the state updates and the visited/cap guards are translated
literally. -/

/-- The mutable state of `PaginationHandler`
(`visited_urls` is a set, modelled as a duplicate-free membership list). -/
structure PaginationHandler where
  base_url : String
  max_pages : Nat
  visited_urls : List String
  current_page : Nat
deriving DecidableEq

/-- `PaginationHandler.__init__` (fresh state). -/
def mkHandler (base : String) (max_pages : Nat) : PaginationHandler :=
  { base_url := base, max_pages := max_pages, visited_urls := [], current_page := 0 }

/-- `set.add`. -/
def addVisited (u : String) (vs : List String) : List String :=
  if u ∈ vs then vs else u :: vs

/-- `PaginationHandler.get_next_page_url`: mark the current URL visited,
advance the page counter, stop at the page cap, otherwise return the first
strategy candidate not yet visited.  `candidates` is the ordered list of
URLs produced by strategies 1–4 on this page. -/
def get_next_page_url (h : PaginationHandler) (candidates : List String)
    (current_url : String) : Option String × PaginationHandler :=
  let visited := addVisited current_url h.visited_urls
  let h' := { h with visited_urls := visited, current_page := h.current_page + 1 }
  if h'.max_pages ≤ h'.current_page then (none, h')
  else (candidates.find? (fun u => !(visited.contains u)), h')

/-- A sequence of `get_next_page_url` calls, each given its page's candidate
list and current URL; returns the per-call results and the final state. -/
def runCalls (h : PaginationHandler) :
    List (List String × String) → List (Option String) × PaginationHandler
  | [] => ([], h)
  | (cands, cu) :: rest =>
    let r := get_next_page_url h cands cu
    let rs := runCalls r.2 rest
    (r.1 :: rs.1, rs.2)

/-! ### `BaseScraper.find_product_containers` (src/scraper_agent/engines/base.py)

DOM elements are abstracted as an arbitrary type `α`; `soup.select` is
abstracted as the page's selector semantics `sel : String → List α`; the
structural fallback `_heuristic_container_detection` is abstracted as its
result `fallback`. -/

/-- The fixed priority-ordered `selector_patterns` list. -/
def selector_patterns : List String :=
  ["[data-component-type='s-search-result']",
   "[data-testid='product-card']",
   "[data-product-id]",
   "[data-item-id]",
   "[data-pid]",
   "[data-sku]",
   "[itemtype*='schema.org/Product']",
   "[typeof='Product']",
   ".product-card",
   ".product-item",
   ".product-tile",
   ".product-grid-item",
   ".product-listing",
   ".product",
   ".s-result-item",
   ".grid-item",
   ".listing-item",
   ".search-result",
   ".shopify-section product",
   ".woocommerce-loop-product",
   "li.product",
   ".col .product-miniature",
   "[class*='product-card']",
   "[class*='product-item']",
   "[class*='ProductCard']",
   "[class*='productCard']",
   "[class*='product_card']",
   "[class*='product_pod']",
   "[class*='product_item']",
   "[class*='productItem']",
   "[class*='ProductItem']",
   "article.product_pod",
   "article.product",
   "article[class*='product']",
   "div[class*='product']",
   "div[class*='Product']",
   "li[class*='product']",
   "li[class*='Product']"]

/-- The pattern cascade: matches of the first pattern yielding at least 2
elements, else the heuristic fallback. -/
def containerCascade {α : Type} (sel : String → List α) (fallback : List α) :
    List α :=
  match selector_patterns.find? (fun p => 2 ≤ (sel p).length) with
  | some p => sel p
  | none => fallback

/-- `BaseScraper.find_product_containers`: a caller-supplied container
selector is used whenever it yields at least one match; otherwise the fixed
pattern cascade runs. -/
def find_product_containers {α : Type} (custom : Option String)
    (sel : String → List α) (fallback : List α) : List α :=
  match custom with
  | some c =>
    if c = "" then containerCascade sel fallback
    else
      let containers := sel c
      if containers.isEmpty then containerCascade sel fallback else containers
  | none => containerCascade sel fallback

/-! ### Brand-color selection (src/landing/analyzer.py)

Colors are normalised `#rrggbb` hex strings.  `math.sqrt` distances are
compared against thresholds; since `sqrt x ≥ t ↔ x ≥ t²` for `t ≥ 0`, the
comparisons are modelled exactly on squared distances over `ℚ`. -/

/-- Value of one hexadecimal digit (`int(c, 16)`); colors reaching these
functions are normalised lowercase hex strings. -/
def hexVal (c : Char) : Nat :=
  if '0' ≤ c && c ≤ '9' then c.toNat - '0'.toNat
  else if 'a' ≤ c && c ≤ 'f' then c.toNat - 'a'.toNat + 10
  else if 'A' ≤ c && c ≤ 'F' then c.toNat - 'A'.toNat + 10
  else 0

/-- `_hex_to_rgb`: strip leading `#` and read three 2-digit channels. -/
def hex_to_rgb (hex : String) : ℤ × ℤ × ℤ :=
  match hex.data.dropWhile (fun c => c = '#') with
  | r1 :: r2 :: g1 :: g2 :: b1 :: b2 :: _ =>
    ((16 * hexVal r1 + hexVal r2 : Nat), (16 * hexVal g1 + hexVal g2 : Nat),
     (16 * hexVal b1 + hexVal b2 : Nat))
  | _ => (0, 0, 0)

/-- Squared Euclidean RGB distance; `_color_distance a b = sqrt (distSq a b)`. -/
def distSq (a b : String) : ℤ :=
  let x := hex_to_rgb a
  let y := hex_to_rgb b
  (x.1 - y.1) ^ 2 + (x.2.1 - y.2.1) ^ 2 + (x.2.2 - y.2.2) ^ 2

/-- `_color_distance a b >= d` for a nonnegative threshold `d`:
`sqrt (distSq a b) ≥ d ↔ distSq a b ≥ d² ↔ distSq a b · d.den² ≥ d.num²`. -/
def distGe (a b : String) (d : ℚ) : Bool :=
  decide (d.num ^ 2 ≤ distSq a b * (d.den : ℤ) ^ 2)

/-- `GENERIC_NEUTRALS` (6-hex-digit strings without `#`). -/
def GENERIC_NEUTRALS : List String :=
  ["ffffff", "000000", "f5f5f5", "f8f8f8", "fafafa", "eeeeee", "e5e5e5",
   "dddddd", "cccccc", "f0f0f0", "e0e0e0", "d0d0d0", "333333", "111111",
   "222222", "444444", "555555", "666666", "777777", "888888", "999999",
   "aaaaaa", "bbbbbb"]

/-- `_is_neutral`: a named neutral, or a 6-digit color whose channel spread
is below 15. -/
def is_neutral (hex_color : String) : Bool :=
  let c := (pyLower hex_color).data.dropWhile (fun ch => ch = '#')
  if GENERIC_NEUTRALS.contains ⟨c⟩ then true
  else
    match c with
    | r1 :: r2 :: g1 :: g2 :: b1 :: b2 :: [] =>
      let r : ℤ := (16 * hexVal r1 + hexVal r2 : Nat)
      let g : ℤ := (16 * hexVal g1 + hexVal g2 : Nat)
      let b : ℤ := (16 * hexVal b1 + hexVal b2 : Nat)
      max r (max g b) - min r (min g b) < 15
    | _ => false

/-- The diversity loop of `_pick_top_diverse`: in rank order, accept a
candidate only while fewer than `n` are selected and its distance to every
already-selected color is at least `minDist`. -/
def diverseGo (n : Nat) (minDist : ℚ) (selected : List String) :
    List String → List String
  | [] => selected
  | c :: cs =>
    if n ≤ selected.length then selected
    else if selected.all (fun s => distGe c s minDist) then
      diverseGo n minDist (selected ++ [c]) cs
    else diverseGo n minDist selected cs

/-- The backfill loop of `_pick_top_diverse`: append not-yet-selected
candidates in rank order (regardless of distance) until `n` are selected. -/
def backfillGo (n : Nat) (selected : List String) :
    List String → List String
  | [] => selected
  | c :: cs =>
    let sel2 := if selected.contains c then selected else selected ++ [c]
    if n ≤ sel2.length then sel2 else backfillGo n sel2 cs

/-- `_pick_top_diverse`. -/
def pick_top_diverse (ranked : List String) (n : Nat) (minDist : ℚ) :
    List String :=
  if ranked.length ≤ n then ranked.take n
  else
    match ranked with
    | [] => []
    | r0 :: rest =>
      let selected := diverseGo n minDist [r0] rest
      let selected2 :=
        if selected.length < n then backfillGo n selected ranked else selected
      selected2.take n

/-- The fixed `dark_fill` fallback colors of `_extract_brand_colors`. -/
def dark_fill : List String := ["#1a1a2e", "#16213e", "#0f3460"]

/-- The padding loop of `_extract_brand_colors`: append each fallback color
that is new and at distance ≥ 40 from every current pick, stopping as soon
as 3 colors are reached. -/
def padDark (result : List String) : List String → List String
  | [] => result
  | nf :: rest =>
    let r2 :=
      if !result.contains nf && result.all (fun s => distGe nf s 40) then
        result ++ [nf]
      else result
    if 3 ≤ r2.length then r2 else padDark r2 rest

/-- The pool-building loop of `_extract_brand_colors` (non-neutrals first,
then the remaining ranked colors in order). -/
def poolBuild (pool : List String) : List String → List String
  | [] => pool
  | c :: cs => poolBuild (if pool.contains c then pool else pool ++ [c]) cs

/-- `_extract_brand_colors`, lines 274–303, with the color-counting stage
abstracted: `ranked_all` is `[c for c, _ in counts.most_common(40)]`, the
weight-ranked candidate colors collected from the page (nonempty exactly
when any color evidence was found). -/
def extract_brand_colors_core (ranked_all : List String) : List String :=
  let non_neutral := ranked_all.filter (fun c => !is_neutral c)
  if ranked_all.isEmpty then []
  else
    let result :=
      if 3 ≤ non_neutral.length then pick_top_diverse non_neutral 3 60
      else if !non_neutral.isEmpty then
        pick_top_diverse (poolBuild non_neutral ranked_all) 3 60
      else pick_top_diverse ranked_all 3 60
    let result2 := if result.length < 3 then padDark result dark_fill else result
    result2.take 3

/-! ### Helper lemmas: substring tests under lowering and stripping -/

/-- `startsWithL` detects exactly the needle-plus-rest decompositions. -/
theorem startsWithL_iff (hay needle : List Char) :
    startsWithL hay needle = true ↔ ∃ t, hay = needle ++ t := by
  induction needle generalizing hay with
  | nil => simp [startsWithL]
  | cons n ns ih =>
    cases hay with
    | nil => simp [startsWithL]
    | cons h hs =>
      simp only [startsWithL, Bool.and_eq_true, beq_iff_eq, ih]
      constructor
      · rintro ⟨rfl, t, rfl⟩
        exact ⟨t, rfl⟩
      · rintro ⟨t, ht⟩
        rw [List.cons_append] at ht
        injection ht with h1 h2
        exact ⟨h1, t, h2⟩

/-- `containsSubL` detects exactly the substring decompositions. -/
theorem containsSubL_iff (needle hay : List Char) :
    containsSubL needle hay = true ↔ ∃ a b, hay = a ++ needle ++ b := by
  induction hay with
  | nil =>
    simp only [containsSubL, List.isEmpty_iff]
    constructor
    · rintro rfl
      exact ⟨[], [], rfl⟩
    · rintro ⟨a, b, h⟩
      rcases List.append_eq_nil.mp h.symm with ⟨h1, h2⟩
      rcases List.append_eq_nil.mp h1 with ⟨-, h3⟩
      exact h3
  | cons h t ih =>
    simp only [containsSubL, Bool.or_eq_true, ih, startsWithL_iff]
    constructor
    · rintro (⟨b, hb⟩ | ⟨a, b, hab⟩)
      · exact ⟨[], b, by simpa using hb⟩
      · exact ⟨h :: a, b, by simp [hab]⟩
    · rintro ⟨a, b, hab⟩
      cases a with
      | nil => exact Or.inl ⟨b, by simpa using hab⟩
      | cons a0 as =>
        simp only [List.cons_append] at hab
        injection hab with h1 h2
        exact Or.inr ⟨as, b, h2⟩

/-- A substring fixed by a character map survives mapping the haystack. -/
theorem containsSubL_map (f : Char → Char) (needle hay : List Char)
    (hfix : needle.map f = needle) (hc : containsSubL needle hay = true) :
    containsSubL needle (hay.map f) = true := by
  rw [containsSubL_iff] at hc ⊢
  obtain ⟨a, b, rfl⟩ := hc
  exact ⟨a.map f, b.map f, by simp [hfix]⟩

/-- A chunk whose first character fails `p` survives `dropWhile p`. -/
theorem dropWhile_chunk (p : Char → Bool) (n : Char) (nt : List Char)
    (hn : p n = false) (a b : List Char) :
    ∃ a', (a ++ (n :: nt) ++ b).dropWhile p = a' ++ (n :: nt) ++ b := by
  induction a with
  | nil => exact ⟨[], by simp [List.dropWhile_cons, hn]⟩
  | cons c cs ih =>
    by_cases hc : p c = true
    · obtain ⟨a', ha'⟩ := ih
      exact ⟨a', by simpa [List.dropWhile_cons, hc, List.append_assoc] using ha'⟩
    · exact ⟨c :: cs, by simp [List.dropWhile_cons, hc]⟩

/-- A chunk with non-whitespace first and last characters survives
`pyStripL`. -/
theorem pyStripL_chunk (n : Char) (nt : List Char) (m : Char) (mt : List Char)
    (hrev : (n :: nt).reverse = m :: mt)
    (hn : pyWs n = false) (hm : pyWs m = false) (a b : List Char) :
    ∃ a' b', pyStripL (a ++ (n :: nt) ++ b) = a' ++ (n :: nt) ++ b' := by
  obtain ⟨a1, ha1⟩ := dropWhile_chunk pyWs n nt hn a b
  have hrw : (a1 ++ (n :: nt) ++ b).reverse =
      b.reverse ++ (m :: mt) ++ a1.reverse := by
    rw [List.reverse_append, List.reverse_append, hrev, List.append_assoc]
  obtain ⟨b1, hb1⟩ := dropWhile_chunk pyWs m mt hm b.reverse a1.reverse
  refine ⟨a1, b1.reverse, ?_⟩
  unfold pyStripL
  rw [ha1, hrw, hb1]
  have hmrev : (m :: mt).reverse = n :: nt := by
    rw [← hrev, List.reverse_reverse]
  rw [List.reverse_append, List.reverse_append, List.reverse_reverse, hmrev,
    List.append_assoc]

/-- A lowercase substring with non-whitespace edges survives the
`text.lower().strip()` normalisation. -/
theorem contains_lower_strip (needle text : String)
    (hfix : needle.data.map Char.toLower = needle.data)
    (hne : needle.data ≠ [])
    (hh : pyWs needle.data.headI = false)
    (hl : pyWs needle.data.reverse.headI = false)
    (hc : containsSub text needle = true) :
    containsSub (pyStrip (pyLower text)) needle = true := by
  unfold containsSub at hc ⊢
  obtain ⟨n, nt, hd⟩ : ∃ c cs, needle.data = c :: cs := by
    cases h : needle.data with
    | nil => exact absurd h hne
    | cons c cs => exact ⟨c, cs, rfl⟩
  rw [hd] at hfix hh hl hc ⊢
  obtain ⟨m, mt, hr⟩ : ∃ c cs, (n :: nt).reverse = c :: cs := by
    cases h : (n :: nt).reverse with
    | nil => simp at h
    | cons c cs => exact ⟨c, cs, rfl⟩
  rw [hr] at hl
  have h2 := containsSubL_map Char.toLower (n :: nt) text.data hfix hc
  rw [containsSubL_iff] at h2
  obtain ⟨a, b, hab⟩ := h2
  obtain ⟨a', b', hstrip⟩ :=
    pyStripL_chunk n nt m mt hr (by simpa using hh) (by simpa using hl) a b
  rw [containsSubL_iff]
  refine ⟨a', b', ?_⟩
  show pyStripL (text.data.map Char.toLower) = a' ++ (n :: nt) ++ b'
  rw [hab, hstrip]

/-- `_clean_availability` only produces the five enum values. -/
theorem cleanAvailValues (s : String) :
    clean_availability s = "In Stock" ∨ clean_availability s = "Out of Stock" ∨
    clean_availability s = "Pre-Order" ∨ clean_availability s = "Limited Stock" ∨
    clean_availability s = "Unknown" := by
  simp only [clean_availability]
  split_ifs <;> simp

/-- The availability normalisation is idempotent on its own outputs. -/
theorem cleanAvailFixed (o : Option String) :
    clean_availability (clean_availability_opt o) = clean_availability_opt o := by
  cases o with
  | none => decide
  | some s =>
    show clean_availability (clean_availability s) = clean_availability s
    rcases cleanAvailValues s with h | h | h | h | h <;> rw [h] <;> decide

/-- C6: any text containing both `"in stock"` and `"out of stock"` is
classified `Out of Stock` by `ProductParser._determine_availability`
(out-of-stock indicators are checked first), and a text matching no
indicator of either set yields `Unknown`. -/
theorem C6_availability_conflict_bias :
    (∀ text : String, containsSub text "in stock" = true →
        containsSub text "out of stock" = true →
        determine_availability text = "Out of Stock") ∧
    (∀ text : String,
        OUT_OF_STOCK_INDICATORS.any
          (fun k => containsSub (pyStrip (pyLower text)) k) = false →
        IN_STOCK_INDICATORS.any
          (fun k => containsSub (pyStrip (pyLower text)) k) = false →
        determine_availability text = "Unknown") := by
  constructor
  · intro text _ h2
    have ho := contains_lower_strip "out of stock" text (by decide) (by decide)
      (by decide) (by decide) h2
    have hany : OUT_OF_STOCK_INDICATORS.any
        (fun k => containsSub (pyStrip (pyLower text)) k) = true :=
      List.any_eq_true.mpr ⟨"out of stock", by simp [OUT_OF_STOCK_INDICATORS], ho⟩
    simp [determine_availability, hany]
  · intro text h1 h2
    simp [determine_availability, h1, h2]

/-- Witness for C6 at concrete inputs. -/
theorem C6_witness :
    determine_availability "item in stock today, out of stock tomorrow" =
      "Out of Stock" ∧
    determine_availability "mystery" = "Unknown" :=
  ⟨C6_availability_conflict_bias.1 _ (by decide) (by decide),
   C6_availability_conflict_bias.2 _ (by decide) (by decide)⟩

/-- C10: `DataCleaner._clean_availability` checks in-stock keywords first,
so any string containing `"available"` — including `"unavailable"`,
`"not available"` and `"currently unavailable"` — maps to `In Stock`, and
the result is always one of the five enum values. -/
theorem C10_clean_availability_available_bias :
    (∀ s : String, containsSub s "available" = true →
        clean_availability s = "In Stock") ∧
    clean_availability "unavailable" = "In Stock" ∧
    clean_availability "not available" = "In Stock" ∧
    clean_availability "currently unavailable" = "In Stock" ∧
    (∀ s : String, clean_availability s ∈
      (["In Stock", "Out of Stock", "Pre-Order", "Limited Stock", "Unknown"] :
        List String)) := by
  refine ⟨?_, by decide, by decide, by decide, ?_⟩
  · intro s h
    rcases eq_or_ne s "" with rfl | hne
    · exact absurd h (by decide)
    · have ha := contains_lower_strip "available" s (by decide) (by decide)
        (by decide) (by decide) h
      have hany : (["in stock", "available", "in-stock"] : List String).any
          (fun k => containsSub (pyStrip (pyLower s)) k) = true :=
        List.any_eq_true.mpr ⟨"available", by simp, ha⟩
      simp [clean_availability, hne, hany]
  · intro s
    rcases cleanAvailValues s with h | h | h | h | h <;> simp [h]

/-- Witness for C10 at a concrete input. -/
theorem C10_witness : clean_availability "item unavailable now" = "In Stock" :=
  C10_clean_availability_available_bias.1 "item unavailable now" (by decide)

/-- C9: a raw record whose name is missing, or whose cleaned name is shorter
than 2 characters, is rejected by `_clean_product` and dropped from the
cleaned output — regardless of its price. -/
theorem C9_invalid_name_dropped (raw : RawProduct)
    (h : ∀ s, raw.name = some s → (clean_name s).length < 2) :
    clean_product raw = none ∧
    ∀ l1 l2 : List RawProduct, clean (l1 ++ raw :: l2) = clean (l1 ++ l2) := by
  have hnone : clean_product raw = none := by
    cases hn : raw.name with
    | none => simp [clean_product, hn]
    | some s =>
      rcases eq_or_ne s "" with rfl | hs
      · simp [clean_product, hn]
      · simp [clean_product, hn, hs, h s hn]
  refine ⟨hnone, fun l1 l2 => ?_⟩
  unfold clean
  rw [List.filterMap_append, List.filterMap_append,
    List.filterMap_cons_none hnone]

/-- Witness for C9: a price-only record. -/
def rawC9 : RawProduct :=
  { name := none, price := some "9.99", availability := none,
    product_url := none, image_url := none }

/-- Witness for C9 at the concrete price-only record. -/
theorem C9_witness : clean_product rawC9 = none ∧ clean [rawC9] = clean [] :=
  ⟨(C9_invalid_name_dropped rawC9 (fun s h => by simp [rawC9] at h)).1,
   (C9_invalid_name_dropped rawC9 (fun s h => by simp [rawC9] at h)).2 [] []⟩

/-! ### Deduplication lemmas (towards C3) -/

/-- The dedup loop emits pairwise-distinct keys, none of them in `seen`. -/
theorem dedupGo_nodup (l : List CleanedProduct) : ∀ seen,
    ((dedupGo seen l).map dedupKey).Nodup ∧
    ∀ k ∈ (dedupGo seen l).map dedupKey, k ∉ seen := by
  induction l with
  | nil => intro seen; simp [dedupGo]
  | cons p ps ih =>
    intro seen
    by_cases hp : dedupKey p ∈ seen
    · simpa [dedupGo, hp] using ih seen
    · have ihp := ih (dedupKey p :: seen)
      simp only [dedupGo, if_neg hp, List.map_cons, List.nodup_cons,
        List.mem_cons]
      refine ⟨⟨fun hmem => ?_, ihp.1⟩, ?_⟩
      · exact absurd (List.mem_cons_self _ _) (ihp.2 _ hmem)
      · rintro k (rfl | hk)
        · exact hp
        · exact fun hkseen => ihp.2 k hk (List.mem_cons_of_mem _ hkseen)

/-- The dedup loop only removes elements (order is untouched). -/
theorem dedupGo_sublist (l : List CleanedProduct) : ∀ seen,
    (dedupGo seen l).Sublist l := by
  induction l with
  | nil => intro seen; simp [dedupGo]
  | cons p ps ih =>
    intro seen
    by_cases hp : dedupKey p ∈ seen
    · simp only [dedupGo, if_pos hp]
      exact (ih seen).cons p
    · simp only [dedupGo, if_neg hp]
      exact (ih _).cons₂ p

/-- The first element with a given key is preserved by the dedup loop. -/
theorem dedupGo_find? (l : List CleanedProduct) :
    ∀ seen (k : String × Option String),
    (dedupGo seen l).find? (fun c => decide (dedupKey c = k)) =
      if k ∈ seen then none
      else l.find? (fun c => decide (dedupKey c = k)) := by
  induction l with
  | nil => intro seen k; simp [dedupGo]
  | cons p ps ih =>
    intro seen k
    by_cases hp : dedupKey p ∈ seen
    · rw [dedupGo, if_pos hp, ih]
      by_cases hk : k ∈ seen
      · simp [hk]
      · have hne : dedupKey p ≠ k := fun h => hk (h ▸ hp)
        simp [hk, List.find?_cons_of_neg, hne]
    · rw [dedupGo, if_neg hp]
      by_cases hpk : dedupKey p = k
      · have hk : k ∉ seen := hpk ▸ hp
        rw [List.find?_cons_of_pos _ (by simpa using hpk), if_neg hk,
          List.find?_cons_of_pos _ (by simpa using hpk)]
      · rw [List.find?_cons_of_neg _ (by simpa using hpk), ih,
          List.find?_cons_of_neg _ (by simpa using hpk)]
        by_cases hk : k ∈ seen
        · rw [if_pos (List.mem_cons_of_mem _ hk), if_pos hk]
        · rw [if_neg (fun hmem => by
              rcases List.mem_cons.mp hmem with heq | h2
              · exact hpk heq.symm
              · exact hk h2), if_neg hk]

/-- C3: the cleaned output never contains two records with the same
`(lowercased stripped name, price)` key, is a sublist of the cleaned
records in input order, and for every key the record kept is the first
cleaned record carrying that key (first occurrence wins). -/
theorem C3_dedup_first_wins (l : List RawProduct) :
    ((clean l).map dedupKey).Nodup ∧
    (clean l).Sublist (l.filterMap clean_product) ∧
    ∀ k : String × Option String,
      (clean l).find? (fun c => decide (dedupKey c = k)) =
        (l.filterMap clean_product).find? (fun c => decide (dedupKey c = k)) := by
  refine ⟨(dedupGo_nodup (l.filterMap clean_product) []).1,
    dedupGo_sublist (l.filterMap clean_product) [], fun k => ?_⟩
  have h := dedupGo_find? (l.filterMap clean_product) [] k
  simpa [clean, deduplicate] using h

/-- C2: numeric price parsing on the four locale examples, and every parsed
result is rounded to 2 decimals (an integer number of hundredths). -/
theorem C2_price_parsing :
    extract_numeric_price "$1,234.56" = some 1234.56 ∧
    extract_numeric_price "1.234,56 €" = some 1234.56 ∧
    extract_numeric_price "12,99" = some 12.99 ∧
    extract_numeric_price "12,999" = some 12999 ∧
    ∀ (s : String) (q : ℚ), extract_numeric_price s = some q →
      ∃ z : ℤ, q = (z : ℚ) / 100 := by
  refine ⟨?_, ?_, ?_, by decide, ?_⟩
  · rw [show (1234.56 : ℚ) = mkRat 123456 100 from by
      norm_num [Rat.mkRat_eq_divInt]]
    decide
  · rw [show (1234.56 : ℚ) = mkRat 123456 100 from by
      norm_num [Rat.mkRat_eq_divInt]]
    decide
  · rw [show (12.99 : ℚ) = mkRat 1299 100 from by
      norm_num [Rat.mkRat_eq_divInt]]
    decide
  · intro s q h
    unfold extract_numeric_price at h
    split_ifs at h with hs
    rcases Option.map_eq_some'.mp h with ⟨v, hv, hq⟩
    refine ⟨roundHalfEvenFrac (100 * v.num) (v.den : ℤ), ?_⟩
    rw [← hq]
    show mkRat _ 100 = _
    rw [Rat.mkRat_eq_divInt, Rat.divInt_eq_div]
    norm_num

/-- Witness for C2's rounding property at a concrete input. -/
theorem C2_witness : ∃ z : ℤ, (1234.56 : ℚ) = (z : ℚ) / 100 :=
  C2_price_parsing.2.2.2.2 "$1,234.56" 1234.56 C2_price_parsing.1

/-! ### C5: idempotence of cleaning -/

/-- A raw record on which cleaning is not idempotent: the junk regex strips
`"New "`, and a second cleaning strips `"Sale "` again. -/
def rawNonIdem : RawProduct :=
  { name := some "New Sale Widget", price := none, availability := none,
    product_url := none, image_url := none }

/-- The cleaned form of `rawNonIdem`. -/
def cleanedNonIdem : CleanedProduct :=
  { name := "Sale Widget", price := none, price_numeric := none,
    availability := "Unknown", product_url := none, image_url := none }

/-- C5 counterexample: `_clean_product` cleans `rawNonIdem` to
`cleanedNonIdem` (name `"Sale Widget"`), but cleaning that record again
changes it (its name is stripped further to `"Widget"`), so the cleaned
record is not a fixed point. -/
theorem C5_counterexample :
    clean_product rawNonIdem = some cleanedNonIdem ∧
    clean_product cleanedNonIdem.toRaw ≠ some cleanedNonIdem := by
  exact ⟨by decide, by decide⟩

/-- C5 amended: re-cleaning reproduces a cleaned record provided each of its
name/price/numeric-price/URL fields individually reproduces itself (the
availability field always does). -/
theorem C5_idempotent_amended (raw : RawProduct) (c : CleanedProduct)
    (h : clean_product raw = some c)
    (hname : clean_name c.name = c.name)
    (hprice : priceField c.price = c.price)
    (hnum : priceNumericField c.price = c.price_numeric)
    (hpu : clean_url c.product_url = c.product_url)
    (hiu : clean_url c.image_url = c.image_url) :
    clean_product c.toRaw = some c := by
  obtain ⟨s, hn⟩ : ∃ s, raw.name = some s := by
    cases hn : raw.name with
    | none => simp [clean_product, hn] at h
    | some s => exact ⟨s, rfl⟩
  simp only [clean_product, hn] at h
  split_ifs at h with h1 h2
  rcases Option.some.inj h with hrec
  have hname2 : c.name = clean_name s := by rw [← hrec]
  have havail : c.availability = clean_availability_opt raw.availability := by
    rw [← hrec]
  have hlen : 2 ≤ c.name.length := by
    rw [hname2]
    omega
  have hne : c.name ≠ "" := by
    intro he
    rw [he] at hlen
    exact absurd hlen (by decide)
  have havfix : clean_availability_opt (some c.availability) = c.availability := by
    show clean_availability c.availability = c.availability
    rw [havail]
    exact cleanAvailFixed raw.availability
  simp only [clean_product, CleanedProduct.toRaw]
  rw [if_neg hne, hname, if_neg (Nat.not_lt.mpr hlen)]
  rw [hprice, hnum, hpu, hiu, havfix]

/-- A raw record whose cleaned form is a fixed point of cleaning. -/
def rawFix : RawProduct :=
  { name := some "Widget", price := some "$5.99", availability := none,
    product_url := none, image_url := none }

/-- The cleaned form of `rawFix` (`mkRat 599 100 = 5.99`). -/
def cleanedFix : CleanedProduct :=
  { name := "Widget", price := some "$5.99",
    price_numeric := some (mkRat 599 100),
    availability := "Unknown", product_url := none, image_url := none }

/-- Witness for the amended C5 at a concrete record. -/
theorem C5_witness : clean_product cleanedFix.toRaw = some cleanedFix :=
  C5_idempotent_amended rawFix cleanedFix (by decide) (by decide) (by decide)
    (by decide) (by decide) (by decide)

/-! ### Pagination lemmas (towards C1) -/

/-- Every call advances `current_page` by exactly 1. -/
theorem nextPagePage (h : PaginationHandler) (c : List String) (cu : String) :
    (get_next_page_url h c cu).2.current_page = h.current_page + 1 := by
  simp only [get_next_page_url]
  split <;> rfl

/-- Calls never change `max_pages`. -/
theorem nextPageMax (h : PaginationHandler) (c : List String) (cu : String) :
    (get_next_page_url h c cu).2.max_pages = h.max_pages := by
  simp only [get_next_page_url]
  split <;> rfl

/-- A returned URL was not previously visited and is not the current URL. -/
theorem nextPageVisited (h : PaginationHandler) (c : List String) (cu u : String)
    (hu : (get_next_page_url h c cu).1 = some u) :
    u ∉ h.visited_urls ∧ u ≠ cu := by
  simp only [get_next_page_url] at hu
  split at hu
  · simp at hu
  · have hp := List.find?_some hu
    have hnotmem : u ∉ addVisited cu h.visited_urls := by simpa using hp
    unfold addVisited at hnotmem
    constructor
    · intro hmem
      apply hnotmem
      split
      · exact hmem
      · exact List.mem_cons_of_mem _ hmem
    · rintro rfl
      apply hnotmem
      split
      · assumption
      · exact List.mem_cons_self _ _
/-- If every candidate is already visited (or the current URL), the call
returns none. -/
theorem nextPageNone (h : PaginationHandler) (c : List String) (cu : String)
    (hall : ∀ u ∈ c, u ∈ addVisited cu h.visited_urls) :
    (get_next_page_url h c cu).1 = none := by
  simp only [get_next_page_url]
  split
  · rfl
  · show c.find? _ = none
    apply List.find?_eq_none.mpr
    intro x hx
    simp [hall x hx]

/-- Once the page counter reaches `max_pages`, the call returns none. -/
theorem nextPageCap (h : PaginationHandler) (c : List String) (cu : String)
    (hcap : h.max_pages ≤ h.current_page + 1) :
    (get_next_page_url h c cu).1 = none := by
  simp only [get_next_page_url]
  rw [if_pos hcap]

/-- Over any call sequence, at most `max_pages - 1 - current_page` calls
return a URL. -/
theorem runCallsCount (inputs : List (List String × String)) :
    ∀ h : PaginationHandler,
    (runCalls h inputs).1.countP (fun r => r.isSome) ≤
      h.max_pages - 1 - h.current_page := by
  induction inputs with
  | nil => intro h; simp [runCalls]
  | cons i rest ih =>
    intro h
    obtain ⟨c, cu⟩ := i
    simp only [runCalls]
    rw [List.countP_cons]
    have hpage := nextPagePage h c cu
    have hmax := nextPageMax h c cu
    have ihr := ih (get_next_page_url h c cu).2
    rw [hpage, hmax] at ihr
    by_cases hcap : h.max_pages ≤ h.current_page + 1
    · rw [nextPageCap h c cu hcap,
        show (if (none : Option String).isSome = true then 1 else 0) = 0
          from rfl]
      omega
    · have hle : (if (get_next_page_url h c cu).1.isSome = true then 1 else 0)
          ≤ 1 := by split <;> omega
      omega

/-- The final page counter equals the initial one plus the number of calls. -/
theorem runCallsPage (inputs : List (List String × String)) :
    ∀ h : PaginationHandler,
    (runCalls h inputs).2.current_page = h.current_page + inputs.length := by
  induction inputs with
  | nil => intro h; simp [runCalls]
  | cons i rest ih =>
    intro h
    obtain ⟨c, cu⟩ := i
    simp only [runCalls]
    rw [ih, nextPagePage]
    simp only [List.length_cons]
    omega

/-- C1: a visited URL (including the current one) is never returned and an
all-visited candidate list yields none; `current_page` advances by exactly
1 per call and exactly tracks the number of calls; a call at the page cap
yields none; with `max_pages = 3`, at most 2 next-URLs are ever produced,
so a 4th is never returned. -/
theorem C1_pagination_invariants :
    (∀ (h : PaginationHandler) (c : List String) (cu u : String),
        (get_next_page_url h c cu).1 = some u →
        u ∉ h.visited_urls ∧ u ≠ cu) ∧
    (∀ (h : PaginationHandler) (c : List String) (cu : String),
        (∀ u ∈ c, u ∈ addVisited cu h.visited_urls) →
        (get_next_page_url h c cu).1 = none) ∧
    (∀ (h : PaginationHandler) (c : List String) (cu : String),
        (get_next_page_url h c cu).2.current_page = h.current_page + 1) ∧
    (∀ (h : PaginationHandler) (c : List String) (cu : String),
        h.max_pages ≤ h.current_page + 1 →
        (get_next_page_url h c cu).1 = none) ∧
    (∀ (b : String) (inputs : List (List String × String)),
        (runCalls (mkHandler b 3) inputs).1.countP (fun r => r.isSome) ≤ 2) ∧
    (∀ (h : PaginationHandler) (inputs : List (List String × String)),
        (runCalls h inputs).2.current_page =
          h.current_page + inputs.length) := by
  refine ⟨nextPageVisited, nextPageNone, nextPagePage, nextPageCap,
    fun b inputs => ?_, fun h inputs => runCallsPage inputs h⟩
  have := runCallsCount inputs (mkHandler b 3)
  simpa [mkHandler] using this

/-- Witness for C1 at concrete states. -/
theorem C1_witness :
    ("http://s/p2" ∉ (mkHandler "http://s" 5).visited_urls ∧
      "http://s/p2" ≠ "http://s/p1") ∧
    (get_next_page_url (mkHandler "http://s" 1) ["http://s/p2"]
      "http://s/p1").1 = none :=
  ⟨C1_pagination_invariants.1 (mkHandler "http://s" 5) ["http://s/p2"]
      "http://s/p1" "http://s/p2" (by decide),
   C1_pagination_invariants.2.2.2.1 (mkHandler "http://s" 1) ["http://s/p2"]
      "http://s/p1" (by decide)⟩

/-- C7: a caller-supplied selector is used whenever it yields ≥ 1 match;
the cascade returns the matches of the first pattern yielding ≥ 2 (so an
accepted pattern always has at least 2 matches, and a pattern matching
exactly 1 element is never the accepted one); with no such pattern the
heuristic fallback is returned. -/
theorem C7_container_threshold :
    ∀ (α : Type) (sel : String → List α) (fb : List α),
    (∀ c : String, c ≠ "" → sel c ≠ [] →
        find_product_containers (some c) sel fb = sel c) ∧
    (∀ c : String, sel c = [] →
        find_product_containers (some c) sel fb = containerCascade sel fb) ∧
    (∀ p, selector_patterns.find? (fun q => 2 ≤ (sel q).length) = some p →
        containerCascade sel fb = sel p ∧ 2 ≤ (sel p).length) ∧
    (selector_patterns.find? (fun q => 2 ≤ (sel q).length) = none →
        containerCascade sel fb = fb) ∧
    (∀ p ∈ selector_patterns, (sel p).length = 1 →
        selector_patterns.find? (fun q => 2 ≤ (sel q).length) ≠ some p) := by
  intro α sel fb
  refine ⟨?_, ?_, ?_, ?_, ?_⟩
  · intro c hc hne
    simp only [find_product_containers]
    rw [if_neg hc]
    simp [hne]
  · intro c hsel
    simp only [find_product_containers]
    split
    · rfl
    · simp [hsel]
  · intro p hp
    unfold containerCascade
    rw [hp]
    exact ⟨rfl, by simpa using List.find?_some hp⟩
  · intro hp
    unfold containerCascade
    rw [hp]
  · intro p _ hlen hfind
    have h2 := List.find?_some hfind
    simp only [decide_eq_true_eq] at h2
    omega

/-- Concrete selector semantics for the C7 witness. -/
def selC7 : String → List Nat := fun s =>
  if s = ".product-card" then [0, 1] else if s = "#custom" then [7] else []

/-- Witness for C7: a 1-match custom selector is accepted, and the cascade
accepts `.product-card` with its 2 matches. -/
theorem C7_witness :
    find_product_containers (some "#custom") selC7 ([] : List Nat) =
      selC7 "#custom" ∧
    containerCascade selC7 ([] : List Nat) = selC7 ".product-card" :=
  ⟨(C7_container_threshold Nat selC7 []).1 "#custom" (by decide) (by decide),
   ((C7_container_threshold Nat selC7 []).2.2.1 ".product-card" (by decide)).1⟩

/-! ### C4: color diversity selection -/

/-- The weight-ranked candidates of the C4 scenario. -/
def c4Ranked : List String := ["#ff0000", "#dc143c", "#0000ff"]

/-- C4 counterexample: selecting 2 colors with min distance 60 does not
return `[#ff0000, #0000ff]`. -/
theorem C4_counterexample :
    pick_top_diverse c4Ranked 2 60 ≠ ["#ff0000", "#0000ff"] := by decide

/-- C4 amended: the selection returns `[#ff0000, #dc143c]` — crimson is at
Euclidean distance √5225 ≈ 72.3 ≥ 60 from red, so it is accepted, and blue
is never reached. -/
theorem C4_selection :
    pick_top_diverse c4Ranked 2 60 = ["#ff0000", "#dc143c"] ∧
    distGe "#dc143c" "#ff0000" 60 = true ∧
    distSq "#ff0000" "#dc143c" = 5225 :=
  ⟨by decide, by decide, by decide⟩

/-! ### C8: brand-color list size -/

/-- `take n` of a nonempty list is nonempty when `n ≠ 0`. -/
theorem takeNeNil (n : Nat) (l : List String) (hn : n ≠ 0) (hl : l ≠ []) :
    l.take n ≠ [] := by
  cases l with
  | nil => exact absurd rfl hl
  | cons a t =>
    cases n with
    | zero => exact absurd rfl hn
    | succ m => simp [List.take]

/-- The diversity loop never empties a nonempty selection. -/
theorem diverseGo_ne_nil (n : Nat) (d : ℚ) (l : List String) :
    ∀ sel : List String, sel ≠ [] → diverseGo n d sel l ≠ [] := by
  induction l with
  | nil => exact fun sel h => by simpa [diverseGo] using h
  | cons c cs ih =>
    intro sel h
    simp only [diverseGo]
    split
    · exact h
    · split
      · exact ih _ (by simp)
      · exact ih _ h

/-- The backfill loop never empties a nonempty selection. -/
theorem backfillGo_ne_nil (n : Nat) (l : List String) :
    ∀ sel : List String, sel ≠ [] → backfillGo n sel l ≠ [] := by
  induction l with
  | nil => exact fun sel h => by simpa [backfillGo] using h
  | cons c cs ih =>
    intro sel h
    simp only [backfillGo]
    split
    · split
      · exact h
      · exact ih sel h
    · split
      · simp
      · exact ih _ (by simp)

/-- `_pick_top_diverse` returns a nonempty list on nonempty input. -/
theorem pick_top_diverse_ne_nil (ranked : List String) (n : Nat) (d : ℚ)
    (h : ranked ≠ []) (hn : n ≠ 0) : pick_top_diverse ranked n d ≠ [] := by
  unfold pick_top_diverse
  split
  · exact takeNeNil n ranked hn h
  · cases ranked with
    | nil => exact absurd rfl h
    | cons r0 rest =>
      have hsel : diverseGo n d [r0] rest ≠ [] :=
        diverseGo_ne_nil n d rest [r0] (by simp)
      have hsel2 : (if (diverseGo n d [r0] rest).length < n then
          backfillGo n (diverseGo n d [r0] rest) (r0 :: rest)
          else diverseGo n d [r0] rest) ≠ [] := by
        split
        · exact backfillGo_ne_nil n (r0 :: rest) _ hsel
        · exact hsel
      exact takeNeNil n _ hn hsel2

/-- The pool-building loop never empties a nonempty pool. -/
theorem poolBuild_ne_nil (l : List String) :
    ∀ pool : List String, pool ≠ [] → poolBuild pool l ≠ [] := by
  induction l with
  | nil => exact fun pool h => by simpa [poolBuild] using h
  | cons c cs ih =>
    intro pool h
    simp only [poolBuild]
    apply ih
    split
    · exact h
    · simp

/-- The dark-fallback padding never empties a nonempty result. -/
theorem padDark_ne_nil (l : List String) :
    ∀ res : List String, res ≠ [] → padDark res l ≠ [] := by
  induction l with
  | nil => exact fun res h => by simpa [padDark] using h
  | cons nf rest ih =>
    intro res h
    simp only [padDark]
    split
    · split
      · simp
      · exact ih _ (by simp)
    · split
      · exact h
      · exact ih _ h

/-- C8 counterexample: a single evidence color too close to every dark
fallback yields a 1-element brand-color list, not 3. -/
theorem C8_counterexample :
    extract_brand_colors_core ["#16213e"] = ["#16213e"] ∧
    (extract_brand_colors_core ["#16213e"]).length ≠ 3 :=
  ⟨by decide, by decide⟩

/-- C8 amended: with color evidence the brand-color list has between 1 and
3 entries (dark fallbacks at distance ≥ 40 are appended until 3 are reached
or the fallbacks are exhausted, so exactly 3 is not guaranteed); with no
evidence the list is empty. -/
theorem C8_brand_colors_amended :
    (∀ ranked_all : List String, ranked_all ≠ [] →
        extract_brand_colors_core ranked_all ≠ [] ∧
        (extract_brand_colors_core ranked_all).length ≤ 3) ∧
    extract_brand_colors_core [] = [] := by
  refine ⟨?_, by decide⟩
  intro ranked h
  have key : ∀ res : List String, res ≠ [] →
      (if res.length < 3 then padDark res dark_fill else res).take 3 ≠ [] ∧
      ((if res.length < 3 then padDark res dark_fill else res).take 3).length
        ≤ 3 := by
    intro res hres
    have h2 : (if res.length < 3 then padDark res dark_fill else res) ≠ [] := by
      split
      · exact padDark_ne_nil dark_fill res hres
      · exact hres
    refine ⟨takeNeNil 3 _ (by omega) h2, ?_⟩
    rw [List.length_take]
    omega
  simp only [extract_brand_colors_core]
  rw [if_neg (by simpa [List.isEmpty_iff] using h)]
  apply key
  split
  · next h3 =>
    exact pick_top_diverse_ne_nil _ 3 60
      (List.ne_nil_of_length_pos (by omega)) (by omega)
  · split
    · next h3 h4 =>
      apply pick_top_diverse_ne_nil _ 3 60 ?_ (by omega)
      apply poolBuild_ne_nil
      simpa [List.isEmpty_iff] using h4
    · exact pick_top_diverse_ne_nil _ 3 60 h (by omega)

/-- Witness for the amended C8 at a concrete evidence color. -/
theorem C8_witness :
    extract_brand_colors_core ["#ff0000"] ≠ [] ∧
    (extract_brand_colors_core ["#ff0000"]).length ≤ 3 :=
  C8_brand_colors_amended.1 ["#ff0000"] (by decide)

end Scraper
